import Mathlib

/-!
Verification development for the transcript-extraction service
(`src/transcriber.py`).  The Python source is shallowly embedded: every
pure helper becomes a Lean function over `String` / `List Char`, and the
orchestrator `process_video_details` becomes a function of an explicit
environment record describing the behaviour of its external collaborators
(the retrieval tool, the filesystem and the clock).  Strings are modelled
as Lean strings; Python `str` operations (`strip`, `lower`, `splitlines`,
`isdigit`, `replace`, `in`) are modelled character-by-character over the
code points the program manipulates.
-/

namespace Transcriber

/-! ### Python character classes (modelled over code points) -/

/-- Code points that Python `str.strip()` removes (Unicode whitespace as
`str.isspace` recognises it). -/
def isPySpace (c : Char) : Bool :=
  (9 ≤ c.toNat && c.toNat ≤ 13) || c.toNat = 32 ||
  (28 ≤ c.toNat && c.toNat ≤ 31) || c.toNat = 133 || c.toNat = 160 ||
  c.toNat = 5760 || (8192 ≤ c.toNat && c.toNat ≤ 8202) ||
  c.toNat = 8232 || c.toNat = 8233 || c.toNat = 8239 || c.toNat = 8287 ||
  c.toNat = 12288

/-- Code points at which Python `str.splitlines()` breaks a line. -/
def isLineBreak (c : Char) : Bool :=
  c.toNat = 10 || c.toNat = 13 || c.toNat = 11 || c.toNat = 12 ||
  c.toNat = 28 || c.toNat = 29 || c.toNat = 30 || c.toNat = 133 ||
  c.toNat = 8232 || c.toNat = 8233

/-- ASCII decimal digit, as Python `str.isdigit` sees the program's inputs. -/
def isDigitChar (c : Char) : Bool :=
  48 ≤ c.toNat && c.toNat ≤ 57

/-- Python `str.lower` on the ASCII range the header comparisons use. -/
def asciiLower (c : Char) : Char :=
  if 65 ≤ c.toNat && c.toNat ≤ 90 then Char.ofNat (c.toNat + 32) else c

/-! ### Python string primitives -/

/-- Python `str.strip()` over a character list. -/
def pyStripL (l : List Char) : List Char :=
  ((l.dropWhile isPySpace).reverse.dropWhile isPySpace).reverse

/-- Python `str.strip()`. -/
def pyStrip (s : String) : String :=
  String.mk (pyStripL s.data)

/-- Whether `pat` is a leading run of `l` (Python `str.startswith`). -/
def isPrefixL : List Char → List Char → Bool
  | [], _ => true
  | _ :: _, [] => false
  | p :: ps, q :: qs => p == q && isPrefixL ps qs

/-- Python substring membership `pat in l`. -/
def containsSub (pat : List Char) : List Char → Bool
  | [] => isPrefixL pat []
  | c :: rest => isPrefixL pat (c :: rest) || containsSub pat rest

/-- Python `str.splitlines()`: `cur` is the (reversed) current line.
A carriage return followed by a line feed counts as one boundary. -/
def pySplitLinesAux : List Char → List Char → List String
  | [], cur => if cur.isEmpty then [] else [String.mk cur.reverse]
  | '\r' :: '\n' :: rest, cur => String.mk cur.reverse :: pySplitLinesAux rest []
  | c :: rest, cur =>
    if isLineBreak c then String.mk cur.reverse :: pySplitLinesAux rest []
    else pySplitLinesAux rest (c :: cur)

/-- Python `str.splitlines()`. -/
def pySplitLines (l : List Char) : List String :=
  pySplitLinesAux l []

/-- Python `str.replace(pat, rep)` (all occurrences, scanning left to
right and skipping past each replacement).  The `Nat` argument is fuel
bounded below by the input length, so it never runs out. -/
def replaceAllAux (pat rep : List Char) : Nat → List Char → List Char
  | _, [] => []
  | 0, l => l
  | Nat.succ fuel, c :: rest =>
    if !pat.isEmpty && isPrefixL pat (c :: rest) then
      rep ++ replaceAllAux pat rep fuel ((c :: rest).drop pat.length)
    else c :: replaceAllAux pat rep fuel rest

/-- Python `str.replace(pat, rep)` over character lists. -/
def replaceAllL (pat rep l : List Char) : List Char :=
  replaceAllAux pat rep l.length l

/-! ### The tag-stripping substitutions of `vtt_to_plaintext`

Each models one `re.sub(..., '', ...)` of the source, lines 101-109: the
matcher consumes a tag body directly after an opening angle bracket and
returns the remainder after the closing one. -/

/-- Matcher for the tail of a match of the pattern for `c.`-classed tags
(one or more characters other than the closing bracket). -/
def matchCDot : List Char → Option (List Char)
  | 'c' :: '.' :: rest =>
    let body := rest.takeWhile (fun ch => ch ≠ '>')
    match rest.drop body.length with
    | '>' :: r => if body.isEmpty then none else some r
    | _ => none
  | _ => none

/-- Matcher for the tail of a match of the voice-tag pattern
(`v` then any run of characters other than the closing bracket). -/
def matchVTag : List Char → Option (List Char)
  | 'v' :: rest =>
    let body := rest.takeWhile (fun ch => ch ≠ '>')
    match rest.drop body.length with
    | '>' :: r => some r
    | _ => none
  | _ => none

/-- Matcher for the tail of the generic tag pattern (one or more
characters other than the closing bracket, then the closing bracket). -/
def matchGenTag : List Char → Option (List Char)
  | rest =>
    let body := rest.takeWhile (fun ch => ch ≠ '>')
    match rest.drop body.length with
    | '>' :: r => if body.isEmpty then none else some r
    | _ => none

/-- One regex-removal pass: at an opening angle bracket, `tryTag` attempts
to match the rest of the tag; on a hit the whole tag is dropped and
scanning resumes after it.  Fuel is bounded below by the input length. -/
def reSubAux (tryTag : List Char → Option (List Char)) : Nat → List Char → List Char
  | _, [] => []
  | 0, l => l
  | Nat.succ fuel, c :: rest =>
    if c = '<' then
      match tryTag rest with
      | some rem => reSubAux tryTag fuel rem
      | none => c :: reSubAux tryTag fuel rest
    else c :: reSubAux tryTag fuel rest

/-- `re.sub` of a tag pattern with the empty replacement. -/
def reSubTag (tryTag : List Char → Option (List Char)) (l : List Char) : List Char :=
  reSubAux tryTag l.length l

/-- The cleaning chain applied to one already-stripped cue-text line
(source lines 101-112): the specific tag removals, the generic tag
removal, then the entity decodes. -/
def cleanLineL (l : List Char) : List Char :=
  let s1 := reSubTag matchCDot l
  let s2 := replaceAllL "</c>".data [] s1
  let s3 := reSubTag matchVTag s2
  let s4 := replaceAllL "</v>".data [] s3
  let s5 := replaceAllL "<i>".data [] s4
  let s6 := replaceAllL "</i>".data [] s5
  let s7 := replaceAllL "<b>".data [] s6
  let s8 := replaceAllL "</b>".data [] s7
  let s9 := reSubTag matchGenTag s8
  let s10 := replaceAllL "&nbsp;".data " ".data s9
  let s11 := replaceAllL [Char.ofNat 160] " ".data s10
  let s12 := replaceAllL "&amp;".data "&".data s11
  let s13 := replaceAllL "&lt;".data "<".data s12
  replaceAllL "&gt;".data ">".data s13

/-- The cleaning chain on strings. -/
def cleanLine (s : String) : String :=
  String.mk (cleanLineL s.data)

/-! ### The cue parser (`vtt_to_plaintext`, source lines 50-121) -/

/-- Header and metadata test of source lines 76-81, applied to the
stripped line. -/
def isHeaderLine (s : String) : Bool :=
  s == "WEBVTT" ||
  isPrefixL "kind:".data (s.data.map asciiLower) ||
  isPrefixL "language:".data (s.data.map asciiLower) ||
  isPrefixL "style".data (s.data.map asciiLower) ||
  isPrefixL "note".data (s.data.map asciiLower) ||
  isPrefixL "region".data (s.data.map asciiLower)

/-- Python `str.isdigit` on the stripped line. -/
def pyIsDigit (s : String) : Bool :=
  !s.data.isEmpty && s.data.all isDigitChar

/-- The cue-time-range test of source line 86. -/
def hasArrow (s : String) : Bool :=
  containsSub "-->".data s.data

/-- The loop state of `vtt_to_plaintext`: the collected segments, the
current cue's cleaned lines, and the in-cue-text flag. -/
structure PState where
  segs : List String
  cur : List String
  inBlock : Bool
deriving DecidableEq, Repr

/-- Joining the buffered lines of one cue into a candidate segment
(source lines 68, 88, 119). -/
def joinSegment (cur : List String) : String :=
  pyStrip (String.intercalate " " cur)

/-- One iteration of the line loop of `vtt_to_plaintext`
(source lines 61-115). -/
def processLine (st : PState) (line : String) : PState :=
  let s := pyStrip line
  if s == "" then
    let st1 :=
      if st.inBlock && !st.cur.isEmpty then
        let t := joinSegment st.cur
        { st with segs := if t ≠ "" then st.segs ++ [t] else st.segs, cur := [] }
      else st
    { st1 with inBlock := false }
  else if isHeaderLine s then
    { st with inBlock := false }
  else if hasArrow s then
    let st1 :=
      if !st.cur.isEmpty then
        let t := joinSegment st.cur
        { st with segs := if t ≠ "" then st.segs ++ [t] else st.segs }
      else st
    { st1 with cur := [], inBlock := true }
  else if pyIsDigit s && !st.inBlock then
    st
  else if st.inBlock then
    let cl := pyStrip (cleanLine s)
    if cl ≠ "" then { st with cur := st.cur ++ [cl] } else st
  else st

/-- The flush of the final cue at end of input (source lines 118-121). -/
def flushFinal (st : PState) : List String :=
  st.segs ++
    (if !st.cur.isEmpty && joinSegment st.cur ≠ "" then [joinSegment st.cur] else [])

/-- Segments extracted from a list of lines. -/
def parseLines (ls : List String) : List String :=
  flushFinal (ls.foldl processLine ⟨[], [], false⟩)

/-- The cue parser: raw subtitle text to ordered cleaned segments
(source lines 56-121). -/
def parseSegments (s : String) : List String :=
  parseLines (pySplitLines s.data)

/-! ### The transcript normalizer (source lines 123-140) -/

/-- The inner loop of the consecutive-duplicate collapse: keep a segment
when it differs from the last kept one. -/
def dedupGo (last : String) : List String → List String
  | [] => []
  | y :: ys => if y ≠ last then y :: dedupGo y ys else dedupGo last ys

/-- Collapse consecutive identical segments (source lines 128-135). -/
def vtt_dedup : List String → List String
  | [] => []
  | x :: xs => x :: dedupGo x xs

/-- The normalizer: the early empty return of lines 123-125 and the
dedup-and-join of lines 128-137. -/
def normalizeSegments (segs : List String) : String :=
  if segs.isEmpty then "" else String.intercalate "\n" (vtt_dedup segs)

/-- `vtt_to_plaintext` (source lines 50-140): cue parsing followed by
normalization. -/
def vtt_to_plaintext (vttContent : String) : String :=
  normalizeSegments (parseSegments vttContent)

/-! ### Valid cue-formatted input (spec side, for the parser claims)

A structured cue and a renderer producing a well-formed timed-text
document: an optional index line, a time-range line, the text lines, and
a blank separator, under a document header. -/

/-- One structured cue of a well-formed document. -/
structure VCue where
  index : Option String
  startEnd : String
  textLines : List String
deriving DecidableEq, Repr

/-- No character of the line is a line boundary. -/
def noBreakL (l : List Char) : Bool :=
  l.all (fun c => !isLineBreak c)

/-- The cleaned lines a cue's text contributes to its segment, exactly
as the parser's in-cue branch accumulates them. -/
def cleanedLines (ts : List String) : List String :=
  ts.filterMap (fun t =>
    let cl := pyStrip (cleanLine (pyStrip t))
    if cl ≠ "" then some cl else none)

/-- A cue's cleaned text: tag-stripped, entity-decoded lines joined with
a single space and trimmed. -/
def cleanCue (c : VCue) : String :=
  joinSegment (cleanedLines c.textLines)

/-- Well-formedness of one cue: a digit-only optional index, a time-range
line that is neither blank, header-like nor line-broken, text lines that
are non-blank, not header-like, free of the range delimiter and of line
boundaries, and a non-empty cleaned text. -/
def validCue (c : VCue) : Bool :=
  (match c.index with
   | none => true
   | some i => !i.data.isEmpty && i.data.all isDigitChar) &&
  hasArrow (pyStrip c.startEnd) &&
  !isHeaderLine (pyStrip c.startEnd) &&
  noBreakL c.startEnd.data &&
  c.textLines.all (fun t =>
    !(pyStrip t == "") && !isHeaderLine (pyStrip t) &&
    !hasArrow (pyStrip t) && noBreakL t.data) &&
  !(cleanCue c == "")

/-- The lines one cue contributes to the document. -/
def renderCueLines (c : VCue) : List String :=
  (match c.index with | some i => [i] | none => []) ++
    (c.startEnd :: c.textLines) ++ [""]

/-- The lines of every cue, in order. -/
def renderAllCueLines : List VCue → List String
  | [] => []
  | c :: cs => renderCueLines c ++ renderAllCueLines cs

/-- The lines of a well-formed document: the document-type header, a
blank line, then the cues. -/
def renderLines (cues : List VCue) : List String :=
  "WEBVTT" :: "" :: renderAllCueLines cues

/-- Joining lines with a line-feed separator. -/
def joinCharsNL : List String → List Char
  | [] => []
  | [l] => l.data
  | l :: ls => l.data ++ '\n' :: joinCharsNL ls

/-- A well-formed cue document as raw text. -/
def renderVTT (cues : List VCue) : String :=
  String.mk (joinCharsNL (renderLines cues))

/-! ### The extraction orchestrator (`process_video_details`, lines 155-319)

External collaborators (yt-dlp, FFmpeg probe, clock, uuid source,
filesystem) are modelled by an environment record; the orchestrator is a
function of the environment and the request.  Its value is the returned
response together with the files left in the temporary transcript area
after the per-request cleanup. -/

/-- The structured metadata a successful `extract_info` returns; absent
dictionary keys are `none`. -/
structure MetaInfo where
  title : Option String
  uploader : Option String
  channel : Option String
deriving DecidableEq, Repr

/-- A metadata-fetch fault: yt-dlp's dedicated download error or any
other exception, with the stringified message. -/
structure MetaErr where
  isDownloadError : Bool
  msg : String
deriving DecidableEq, Repr

/-- Environment of the metadata step: the fetch outcome and the random
hex suffixes used for the title/author placeholders. -/
structure MetaEnv where
  outcome : Except MetaErr MetaInfo
  titleUuidHex : String
  authorUuidHex : String

/-- A completed audio invocation: yt-dlp's return code, whether the
expected output file exists afterwards, and the external download URL
the route builder produces for it. -/
structure AudioDone where
  errorCode : Int
  outputExists : Bool
  publicUrl : String
deriving DecidableEq, Repr

/-- Environment of the audio step: the FFmpeg probe, the timestamp
string, and the invocation outcome (an exception message on a fault). -/
structure AudioEnv where
  ffmpegAvailable : Bool
  nowStr : String
  outcome : Except String AudioDone

/-- One entry of yt-dlp's `requested_subtitles` mapping. -/
structure SubInfo where
  filepath : Option String
deriving DecidableEq, Repr

/-- A subtitle-fetch fault, as for metadata. -/
structure TransErr where
  isDownloadError : Bool
  msg : String
deriving DecidableEq, Repr

/-- Environment of the transcript step: the per-request uuid hex, the
files the collaborator left in the temporary area, the structured fetch
outcome (the `requested_subtitles` association, or an exception), the
content read back from a subtitle file, and whether the final
`os.remove` raises. -/
structure TransEnv where
  uuidHex : String
  written : List String
  outcome : Except TransErr (Option (List (String × SubInfo)))
  readFile : String → String
  removeFails : Bool

/-- The whole environment.  `baseDir` stands for the directory of the
script, from which the download and temporary areas are derived. -/
structure Env where
  baseDir : String
  meta : MetaEnv
  audio : AudioEnv
  trans : TransEnv

/-- An extraction request: the arguments of `process_video_details`. -/
structure Request where
  video_url : String
  perform_audio_extraction : Bool
  perform_transcript_extraction : Bool
  audio_format : String
deriving DecidableEq, Repr

/-- The response dictionary built by `process_video_details`
(lines 158-167; `audio_relative_path` is added by the audio step). -/
structure PVDResult where
  video_url_processed : String
  video_title : Option String
  author : Option String
  audio_download_url : Option String
  audio_server_path : Option String
  audio_relative_path : Option String
  transcript_text : Option String
  transcript_language_detected : Option String
  error : Option String
deriving DecidableEq, Repr

/-- The initial response (every field but the echoed URL unset). -/
def initResult (url : String) : PVDResult :=
  { video_url_processed := url
    video_title := none
    author := none
    audio_download_url := none
    audio_server_path := none
    audio_relative_path := none
    transcript_text := none
    transcript_language_detected := none
    error := none }

/-- Record an error only when none is recorded yet (the source's
`if not response["error"]` guard). -/
def recordError (r : PVDResult) (msg : String) : PVDResult :=
  { r with error := if r.error = none then some msg else r.error }

/-- Collapsing runs of underscores to one (the `re.sub` of source
line 46).  Fuel is bounded below by the input length. -/
def squeezeAux : Nat → List Char → List Char
  | _, [] => []
  | 0, l => l
  | Nat.succ fuel, c :: rest =>
    if c = '_' then '_' :: squeezeAux fuel (rest.dropWhile (fun ch => ch = '_'))
    else c :: squeezeAux fuel rest

/-- Collapsing runs of underscores to one. -/
def squeezeUnderscores (l : List Char) : List Char :=
  squeezeAux l.length l

/-- `sanitize_filename` (source lines 42-48), over ASCII alphanumerics. -/
def sanitize_filename (nameStr : String) (maxLength : Nat) : String :=
  let s1 := nameStr.data.map (fun ch => if ch = ' ' then '_' else ch)
  let s2 := s1.map (fun ch =>
    if ch.isAlphanum || ch = '-' || ch = '_' then ch else '_')
  let s3 := squeezeUnderscores s2
  let s4 := (s3.dropWhile (fun ch => ch = '_')).reverse.dropWhile
    (fun ch => ch = '_') |>.reverse
  String.mk (s4.take maxLength)

/-- The is-YouTube test of source lines 247 and 326: Python truthiness of
the URL, then substring membership. -/
def is_youtube_url (videoUrl : String) : Bool :=
  if videoUrl ≠ "" then containsSub "youtube.com/".data videoUrl.data else false

/-- The subtitle language preference of source lines 257 and 270/280. -/
def subtitle_language_preference : List String := ["en", "ro"]

/-- The expected on-disk name of a fetched subtitle track
(source line 281). -/
def expectedSubPath (tempDir base lang : String) : String :=
  tempDir ++ "/" ++ base ++ "." ++ lang ++ ".vtt"

/-- The loop over the preference list inside `requested_subtitles`
(source lines 270-277): the first language whose entry names a
truthy, existing file path wins. -/
def pickSub (rs : List (String × SubInfo)) (written : List String) :
    List String → Option (String × String)
  | [] => none
  | lang :: restLangs =>
    match rs.lookup lang with
    | some si =>
      match si.filepath with
      | some p =>
        if !(p == "") && written.contains p then some (p, lang)
        else pickSub rs written restLangs
      | none => pickSub rs written restLangs
    | none => pickSub rs written restLangs

/-- The directory-scan fallback (source lines 278-286): the first
language whose expected file exists wins. -/
def scanSub (tempDir base : String) (written : List String) :
    List String → Option (String × String)
  | [] => none
  | lang :: restLangs =>
    if written.contains (expectedSubPath tempDir base lang) then
      some (expectedSubPath tempDir base lang, lang)
    else scanSub tempDir base written restLangs

/-- Resolution of the downloaded subtitle path and language: the
structured response first (skipped for an absent or empty mapping, the
source's truthiness test), then the filesystem scan. -/
def resolveDownloaded (rs : Option (List (String × SubInfo)))
    (written : List String) (tempDir base : String) :
    Option (String × String) :=
  let first :=
    match rs with
    | some l =>
      if !l.isEmpty then pickSub l written subtitle_language_preference else none
    | none => none
  match first with
  | some hit => some hit
  | none => scanSub tempDir base written subtitle_language_preference

/-- What one iteration of the `requested_subtitles` loop tests for a
language (source lines 271-273): the entry's file path, when the entry
exists, the path is truthy and the file exists. -/
def subCandidate (rs : List (String × SubInfo)) (written : List String)
    (lang : String) : Option String :=
  match rs.lookup lang with
  | some si =>
    match si.filepath with
    | some p => if !(p == "") && written.contains p then some p else none
    | none => none
  | none => none

/-- The audio-extraction step (source lines 193-245). -/
def audioStep (env : Env) (req : Request) (r : PVDResult) : PVDResult :=
  if req.perform_audio_extraction then
    if !env.audio.ffmpegAvailable then
      recordError r "FFmpeg not found, cannot extract audio."
    else
      match env.audio.outcome with
      | Except.error e =>
        recordError r ("Unexpected error during audio extraction: " ++ e)
      | Except.ok a =>
        let titleVal :=
          match r.video_title with
          | some t => if t ≠ "" then t else "untitled"
          | none => "untitled"
        let base := env.audio.nowStr ++ "_" ++ sanitize_filename titleVal 60
        let requestDir := env.baseDir ++ "/api_downloads" ++ "/" ++ base
        if a.errorCode ≠ 0 then
          recordError r
            ("yt-dlp audio process failed (code " ++ toString a.errorCode ++ ").")
        else
          let fileName := base ++ "." ++ req.audio_format
          let serverPath := requestDir ++ "/" ++ fileName
          let relPath := base ++ "/" ++ fileName
          if a.outputExists then
            { r with audio_server_path := some serverPath
                     audio_relative_path := some relPath
                     audio_download_url := some a.publicUrl }
          else
            { recordError r
                ("Audio file not found post-processing at " ++ serverPath ++ ".")
              with audio_server_path := none, audio_relative_path := none }
  else r

/-- The informational text of the unsupported-source branch
(source line 317). -/
def transcriptMsgUnsupported : String :=
  "Transcript extraction currently only supported for YouTube URLs by this endpoint."

/-- The transcript-extraction step (source lines 247-317), returning the
updated response and the files still in the temporary area after the
`finally` cleanup. -/
def transStep (env : Env) (req : Request) (r : PVDResult) :
    PVDResult × List String :=
  if req.perform_transcript_extraction && is_youtube_url req.video_url then
    let base := "transcript_" ++ env.trans.uuidHex
    let tempDir := env.baseDir ++ "/api_transcripts_temp"
    match env.trans.outcome with
    | Except.ok rs =>
      match resolveDownloaded rs env.trans.written tempDir base with
      | some hit =>
        let content := env.trans.readFile hit.1
        let r1 := { r with
          transcript_language_detected := some hit.2
          transcript_text := some (vtt_to_plaintext content) }
        let remaining :=
          if env.trans.written.contains hit.1 && !env.trans.removeFails then
            env.trans.written.filter (fun f => f ≠ hit.1)
          else env.trans.written
        (r1, remaining)
      | none =>
        (recordError r "Transcript VTT not found or not available in EN/RO.",
         env.trans.written)
    | Except.error te =>
      let msg :=
        if te.isDownloadError then
          "yt-dlp DownloadError during transcript fetch: " ++ te.msg
        else
          "Unexpected error during transcript processing: " ++ te.msg
      (recordError r msg, env.trans.written)
  else if req.perform_transcript_extraction && !is_youtube_url req.video_url then
    ({ r with transcript_text := some transcriptMsgUnsupported }, [])
  else (r, [])

/-- The message recorded when metadata fetching fails
(source lines 184-191). -/
def metaErrorMessage (e : MetaErr) : String :=
  if e.isDownloadError then
    "Failed to fetch initial video metadata: " ++ e.msg
  else
    "Unexpected error fetching initial video metadata: " ++ e.msg

/-- `process_video_details` (source lines 155-319): metadata lookup,
then the audio and transcript steps; metadata failure aborts at once.
Also returns the temporary-area contents at return time. -/
def process_video_details (env : Env) (req : Request) :
    PVDResult × List String :=
  let r0 := initResult req.video_url
  match env.meta.outcome with
  | Except.error e => ({ r0 with error := some (metaErrorMessage e) }, [])
  | Except.ok info =>
    let r1 := { r0 with
      video_title :=
        some (info.title.getD ("unknown_title_" ++ env.meta.titleUuidHex))
      author :=
        some (match info.uploader with
          | some u => u
          | none => info.channel.getD ("unknown_author_" ++ env.meta.authorUuidHex)) }
    transStep env req (audioStep env req r1)

/-! ### Derived views of the orchestrator (used by the statements) -/

/-- First-of-two option choice, the shape of the first-error-wins policy. -/
def firstSome (a b : Option String) : Option String :=
  match a with
  | some x => some x
  | none => b

/-- The transcript step's own error candidate: what it records when no
earlier error exists. -/
def transcript_step_error (env : Env) (req : Request) : Option String :=
  (transStep env req (initResult req.video_url)).1.error

/-- The response right after a successful metadata step
(source lines 180-182). -/
def metaResult (env : Env) (req : Request) (info : MetaInfo) : PVDResult :=
  { initResult req.video_url with
    video_title :=
      some (info.title.getD ("unknown_title_" ++ env.meta.titleUuidHex))
    author :=
      some (match info.uploader with
        | some u => u
        | none => info.channel.getD ("unknown_author_" ++ env.meta.authorUuidHex)) }

/-- The subtitle path and language the transcript step resolves, if any:
the transcript branch is taken and one of the two resolution phases hits. -/
def transResolved (env : Env) (req : Request) : Option (String × String) :=
  if req.perform_transcript_extraction && is_youtube_url req.video_url then
    match env.trans.outcome with
    | Except.ok rs =>
      resolveDownloaded rs env.trans.written (env.baseDir ++ "/api_transcripts_temp")
        ("transcript_" ++ env.trans.uuidHex)
    | Except.error _ => none
  else none

/-! ### Concrete environments for witnesses and counterexamples -/

/-- Sample metadata of a successful lookup. -/
def sampleMeta : MetaInfo :=
  { title := some "Sample Video", uploader := some "Chan", channel := none }

/-- The expected English subtitle path of the sample run. -/
def c1EnPath : String := "/app/api_transcripts_temp/transcript_deadbeef.en.vtt"

/-- The expected Romanian subtitle path of the sample run. -/
def c1RoPath : String := "/app/api_transcripts_temp/transcript_deadbeef.ro.vtt"

/-- Sample environment: metadata succeeds; yt-dlp fetched both preference
languages into the temporary area and reported the English track. -/
def c1Env : Env :=
  { baseDir := "/app"
    meta := { outcome := Except.ok sampleMeta
              titleUuidHex := "ab12cd", authorUuidHex := "ef34ab" }
    audio := { ffmpegAvailable := true
               nowStr := "2026-10-12_120000"
               outcome := Except.ok
                 { errorCode := 0, outputExists := true
                   publicUrl := "http://host/files/x.mp3" } }
    trans := { uuidHex := "deadbeef"
               written := [c1EnPath, c1RoPath]
               outcome := Except.ok (some [("en", { filepath := some c1EnPath })])
               readFile := fun _ => ""
               removeFails := false } }

/-- Sample transcript-only request for a supported URL. -/
def c1Req : Request :=
  { video_url := "https://www.youtube.com/watch?v=abc"
    perform_audio_extraction := false
    perform_transcript_extraction := true
    audio_format := "mp3" }

/-- Environment whose metadata lookup fails with a download error. -/
def c3Env : Env :=
  { c1Env with
    meta := { outcome := Except.error { isDownloadError := true, msg := "HTTP Error 404" }
              titleUuidHex := "ab12cd", authorUuidHex := "ef34ab" } }

/-- Two well-formed sample cues, with markup and an entity to clean. -/
def c4Cues : List VCue :=
  [{ index := some "1"
     startEnd := "00:00:00.000 --> 00:00:02.000"
     textLines := ["Hello <i>world</i>"] },
   { index := none
     startEnd := "00:00:02.000 --> 00:00:04.000"
     textLines := ["Bye &amp; see you", "soon"] }]

/-- Transcript request for a URL of an unsupported platform. -/
def c8Req : Request :=
  { video_url := "https://vimeo.com/12345"
    perform_audio_extraction := false
    perform_transcript_extraction := true
    audio_format := "mp3" }

end Transcriber

namespace Transcriber

lemma digit_toNat {c : Char} (h : isDigitChar c = true) :
    48 ≤ c.toNat ∧ c.toNat ≤ 57 := by
  simpa [isDigitChar] using h

lemma isPySpace_of_digit {c : Char} (h : isDigitChar c = true) :
    isPySpace c = false := by
  obtain ⟨h1, h2⟩ := digit_toNat h
  simp [isPySpace]
  omega

lemma isLineBreak_of_digit {c : Char} (h : isDigitChar c = true) :
    isLineBreak c = false := by
  obtain ⟨h1, h2⟩ := digit_toNat h
  simp [isLineBreak]
  omega

lemma asciiLower_of_digit {c : Char} (h : isDigitChar c = true) :
    asciiLower c = c := by
  obtain ⟨h1, h2⟩ := digit_toNat h
  unfold asciiLower
  rw [if_neg]
  simp
  omega

lemma char_beq_false_of_toNat {c d : Char} (h : ¬ c.toNat = d.toNat) :
    (c == d) = false := by
  rw [beq_eq_false_iff_ne]
  intro he
  exact h (by rw [he])

end Transcriber

namespace Transcriber

lemma dropWhile_eq_self_of_all {p : Char → Bool} {l : List Char}
    (h : ∀ c ∈ l, p c = false) : l.dropWhile p = l := by
  cases l with
  | nil => rfl
  | cons c rest => simp [List.dropWhile_cons, h c (by simp)]

lemma pyStripL_of_digits {l : List Char} (h : l.all isDigitChar = true) :
    pyStripL l = l := by
  have hmem : ∀ c ∈ l, isDigitChar c = true := by
    intro c hc; exact List.all_eq_true.mp h c hc
  unfold pyStripL
  rw [dropWhile_eq_self_of_all (fun c hc => isPySpace_of_digit (hmem c hc)),
      dropWhile_eq_self_of_all (fun c hc =>
        isPySpace_of_digit (hmem c (List.mem_reverse.mp hc))),
      List.reverse_reverse]

lemma isPrefixL_cons_false {p c : Char} (ps rest : List Char)
    (h : ¬ p.toNat = c.toNat) : isPrefixL (p :: ps) (c :: rest) = false := by
  show (p == c && isPrefixL ps rest) = false
  rw [char_beq_false_of_toNat h, Bool.false_and]

lemma mem_of_isPrefixL {pat l : List Char} (h : isPrefixL pat l = true) :
    ∀ c ∈ pat, c ∈ l := by
  induction pat generalizing l with
  | nil => intro c hc; simp at hc
  | cons p ps ih =>
    cases l with
    | nil => simp [isPrefixL] at h
    | cons q qs =>
      have h2 : (p == q) = true ∧ isPrefixL ps qs = true := by
        simpa [isPrefixL] using h
      intro c hc
      rcases List.mem_cons.mp hc with hcp | hcps
      · subst hcp
        simp [beq_iff_eq.mp h2.1]
      · exact List.mem_cons_of_mem _ (ih h2.2 c hcps)

lemma mem_of_containsSub {pat l : List Char} (h : containsSub pat l = true) :
    ∀ c ∈ pat, c ∈ l := by
  induction l with
  | nil =>
    intro c hc
    have : isPrefixL pat [] = true := by simpa [containsSub] using h
    exact absurd hc (by
      cases pat with
      | nil => simp
      | cons p ps => simp [isPrefixL] at this)
  | cons q qs ih =>
    have h2 : isPrefixL pat (q :: qs) = true ∨ containsSub pat qs = true := by
      simpa [containsSub, Bool.or_eq_true] using h
    intro c hc
    rcases h2 with hp | hs
    · exact mem_of_isPrefixL hp c hc
    · exact List.mem_cons_of_mem _ (ih hs c hc)

lemma hasArrow_of_digits {s : String} (h : s.data.all isDigitChar = true) :
    hasArrow s = false := by
  by_contra hne
  have harr : hasArrow s = true := by
    cases hv : hasArrow s
    · exact absurd hv hne
    · rfl
  have hmem : '-' ∈ s.data :=
    mem_of_containsSub harr '-' (by decide)
  have : isDigitChar '-' = true := List.all_eq_true.mp h '-' hmem
  simp [isDigitChar] at this

lemma isHeaderLine_of_digit {s : String} (h : pyIsDigit s = true) :
    isHeaderLine s = false := by
  have h' : (!s.data.isEmpty && s.data.all isDigitChar) = true := h
  rw [Bool.and_eq_true] at h'
  obtain ⟨hne, hall⟩ := h'
  cases hd : s.data with
  | nil => rw [hd] at hne; simp at hne
  | cons c rest =>
    have hc : isDigitChar c = true := by
      have := hall; rw [hd] at this
      exact List.all_eq_true.mp this c (by simp)
    obtain ⟨h1, h2⟩ := digit_toNat hc
    have hW : (s == "WEBVTT") = false := by
      rw [beq_eq_false_iff_ne]
      intro he
      rw [he] at hd
      have : 'W' = c := by
        have : ('W' :: "EBVTT".data) = c :: rest := hd
        exact (List.cons.injEq _ _ _ _ ▸ this).1
      have := congrArg Char.toNat this
      simp at this
      omega
    have hmap : s.data.map asciiLower = c :: rest.map asciiLower := by
      rw [hd, List.map_cons, asciiLower_of_digit hc]
    unfold isHeaderLine
    rw [hW, hmap]
    rw [show "kind:".data = 'k' :: "ind:".data from rfl,
        show "language:".data = 'l' :: "anguage:".data from rfl,
        show "style".data = 's' :: "tyle".data from rfl,
        show "note".data = 'n' :: "ote".data from rfl,
        show "region".data = 'r' :: "egion".data from rfl]
    rw [isPrefixL_cons_false _ _ (by simp; omega),
        isPrefixL_cons_false _ _ (by simp; omega),
        isPrefixL_cons_false _ _ (by simp; omega),
        isPrefixL_cons_false _ _ (by simp; omega),
        isPrefixL_cons_false _ _ (by simp; omega)]
    rfl

end Transcriber

namespace Transcriber

lemma pySplitLinesAux_nil (cur : List Char) :
    pySplitLinesAux [] cur =
      if cur.isEmpty then [] else [String.mk cur.reverse] := rfl

lemma pySplitLinesAux_newline (rest cur : List Char) :
    pySplitLinesAux ('\n' :: rest) cur =
      String.mk cur.reverse :: pySplitLinesAux rest [] := rfl

lemma pySplitLinesAux_nobreak {c : Char} (rest cur : List Char)
    (h : isLineBreak c = false) :
    pySplitLinesAux (c :: rest) cur = pySplitLinesAux rest (c :: cur) := by
  have hc : ¬ c = '\r' := by
    intro he; subst he; simp [isLineBreak] at h
  cases rest with
  | nil => simp [pySplitLinesAux, h]
  | cons d rest2 => simp [pySplitLinesAux, h, hc]

lemma pySplitLinesAux_append (x rest cur : List Char)
    (h : ∀ c ∈ x, isLineBreak c = false) :
    pySplitLinesAux (x ++ rest) cur = pySplitLinesAux rest (x.reverse ++ cur) := by
  induction x generalizing cur with
  | nil => simp
  | cons c xs ih =>
    rw [List.cons_append, pySplitLinesAux_nobreak _ _ (h c (by simp)),
        ih _ (fun d hd => h d (by simp [hd]))]
    simp

lemma pySplitLines_joinCharsNL {ls : List String}
    (h : ∀ l ∈ ls, noBreakL l.data = true) :
    pySplitLines (joinCharsNL ls) =
      if ls.getLast? = some "" then ls.dropLast else ls := by
  induction ls with
  | nil => rfl
  | cons l tail ih =>
    have hl : ∀ c ∈ l.data, isLineBreak c = false := by
      intro c hc
      have := h l (by simp)
      unfold noBreakL at this
      have := List.all_eq_true.mp this c hc
      simpa using this
    cases tail with
    | nil =>
      show pySplitLinesAux l.data [] = _
      have : pySplitLinesAux l.data [] =
          pySplitLinesAux ([] : List Char) (l.data.reverse ++ []) := by
        rw [← pySplitLinesAux_append l.data [] [] hl, List.append_nil]
      rw [this, pySplitLinesAux_nil]
      by_cases he : l = ""
      · subst he; simp
      · have hne : l.data ≠ [] := by
          intro hd; exact he (by cases l; simp at hd; simp [hd])
        simp [List.isEmpty_iff, hne, he]
    | cons l2 rest =>
      have hjoin : joinCharsNL (l :: l2 :: rest) =
          l.data ++ '\n' :: joinCharsNL (l2 :: rest) := rfl
      show pySplitLinesAux (joinCharsNL (l :: l2 :: rest)) [] = _
      rw [hjoin, pySplitLinesAux_append _ _ _ hl, pySplitLinesAux_newline]
      have ihr := ih (fun x hx => h x (by simp [hx]))
      show String.mk (l.data.reverse ++ []).reverse :: pySplitLines (joinCharsNL (l2 :: rest)) = _
      rw [ihr]
      simp only [List.append_nil, List.reverse_reverse]
      have hlast : (l :: l2 :: rest).getLast? = (l2 :: rest).getLast? := by
        simp [List.getLast?_cons_cons]
      rw [hlast]
      by_cases hc : (l2 :: rest).getLast? = some ""
      · simp [hc, List.dropLast_cons₂]
      · simp [hc]

end Transcriber

namespace Transcriber

lemma processLine_digit (st : PState) (line : String)
    (h1 : (pyStrip line == "") = false)
    (h2 : isHeaderLine (pyStrip line) = false)
    (h3 : hasArrow (pyStrip line) = false)
    (h4 : pyIsDigit (pyStrip line) = true)
    (hb : st.inBlock = false) :
    processLine st line = st := by
  simp [processLine, h1, h2, h3, h4, hb]

lemma processLine_header (st : PState) (line : String)
    (h1 : (pyStrip line == "") = false)
    (h2 : isHeaderLine (pyStrip line) = true) :
    processLine st line = { st with inBlock := false } := by
  simp [processLine, h1, h2]

lemma hasArrow_ne_empty {s : String} (h : hasArrow s = true) :
    (s == "") = false := by
  rw [beq_eq_false_iff_ne]
  intro he
  subst he
  simp [hasArrow, containsSub, isPrefixL] at h

lemma processLine_arrow (st : PState) (line : String)
    (h2 : isHeaderLine (pyStrip line) = false)
    (h3 : hasArrow (pyStrip line) = true)
    (hcur : st.cur = []) :
    processLine st line = { st with cur := [], inBlock := true } := by
  simp [processLine, hasArrow_ne_empty h3, h2, h3, hcur]

lemma processLine_text (st : PState) (line : String)
    (h1 : (pyStrip line == "") = false)
    (h2 : isHeaderLine (pyStrip line) = false)
    (h3 : hasArrow (pyStrip line) = false)
    (hb : st.inBlock = true) :
    processLine st line =
      if pyStrip (cleanLine (pyStrip line)) ≠ "" then
        { st with cur := st.cur ++ [pyStrip (cleanLine (pyStrip line))] }
      else st := by
  simp [processLine, h1, h2, h3, hb]

lemma processLine_blank_flush (segs cur : List String)
    (hcur : ¬ cur.isEmpty = true) (ht : joinSegment cur ≠ "") :
    processLine ⟨segs, cur, true⟩ "" =
      ⟨segs ++ [joinSegment cur], [], false⟩ := by
  simp [processLine, show pyStrip "" = "" from rfl, hcur, ht]

lemma flushFinal_processLine_blank (st : PState) :
    flushFinal (processLine st "") = flushFinal st := by
  have hblank : (pyStrip "" == "") = true := by decide
  by_cases hb : st.inBlock
  · by_cases hc : st.cur.isEmpty
    · simp [processLine, hblank, hb, hc, flushFinal]
    · by_cases ht : joinSegment st.cur ≠ ""
      · simp [processLine, hblank, hb, hc, ht, flushFinal]
      · simp [processLine, hblank, hb, hc, ht, flushFinal]
  · simp [processLine, hblank, hb, flushFinal]

lemma parseLines_concat_blank (xs : List String) :
    parseLines (xs ++ [""]) = parseLines xs := by
  unfold parseLines
  rw [List.foldl_append]
  exact flushFinal_processLine_blank _

end Transcriber

namespace Transcriber

lemma pyStrip_of_digits {s : String} (h : s.data.all isDigitChar = true) :
    pyStrip s = s := by
  show String.mk (pyStripL s.data) = s
  rw [pyStripL_of_digits h]

lemma cleanedLines_nil : cleanedLines [] = [] := rfl

lemma joinSegment_nil : joinSegment [] = "" := by decide

lemma foldl_textLines (ts : List String) (st : PState)
    (h : ∀ t ∈ ts, (pyStrip t == "") = false ∧ isHeaderLine (pyStrip t) = false ∧
      hasArrow (pyStrip t) = false)
    (hb : st.inBlock = true) :
    ts.foldl processLine st = { st with cur := st.cur ++ cleanedLines ts } := by
  induction ts generalizing st with
  | nil => cases st; simp [cleanedLines_nil]
  | cons t ts' ih =>
    obtain ⟨h1, h2, h3⟩ := h t (by simp)
    rw [List.foldl_cons, processLine_text st t h1 h2 h3 hb]
    by_cases hcl : pyStrip (cleanLine (pyStrip t)) ≠ ""
    · rw [if_pos hcl, ih _ (fun x hx => h x (by simp [hx])) (by simp [hb])]
      simp only [cleanedLines, List.filterMap_cons]
      rw [if_pos hcl]
      simp
    · rw [if_neg hcl, ih st (fun x hx => h x (by simp [hx])) hb]
      simp only [cleanedLines, List.filterMap_cons]
      rw [if_neg hcl]

lemma foldl_renderCue (c : VCue) (segs : List String)
    (h : validCue c = true) :
    (renderCueLines c).foldl processLine ⟨segs, [], false⟩ =
      ⟨segs ++ [cleanCue c], [], false⟩ := by
  simp only [validCue, Bool.and_eq_true] at h
  obtain ⟨⟨⟨⟨⟨hidx, harr⟩, hhd⟩, hnb⟩, htxt⟩, hcln⟩ := h
  have hhd' : isHeaderLine (pyStrip c.startEnd) = false := by
    simpa using hhd
  have htxt' : ∀ t ∈ c.textLines, (pyStrip t == "") = false ∧
      isHeaderLine (pyStrip t) = false ∧ hasArrow (pyStrip t) = false := by
    intro t ht
    have := List.all_eq_true.mp htxt t ht
    simp only [Bool.and_eq_true] at this
    obtain ⟨⟨⟨a, b⟩, d⟩, _⟩ := this
    refine ⟨by simpa using a, by simpa using b, by simpa using d⟩
  have hclean : cleanCue c ≠ "" := by
    simpa [Bool.not_eq_true', beq_eq_false_iff_ne] using hcln
  have hcl_ne : ¬ (cleanedLines c.textLines).isEmpty = true := by
    intro he
    have : cleanedLines c.textLines = [] := by
      cases hv : cleanedLines c.textLines
      · rfl
      · rw [hv] at he; simp at he
    exact hclean (by rw [cleanCue, this, joinSegment_nil])
  unfold renderCueLines
  rw [List.foldl_append, List.foldl_append]
  have hidxstep :
      ((match c.index with | some i => [i] | none => []) : List String).foldl
        processLine ⟨segs, [], false⟩ = ⟨segs, [], false⟩ := by
    cases hix : c.index with
    | none => rfl
    | some i =>
      rw [hix] at hidx
      have hne : ¬ i.data.isEmpty = true ∧ i.data.all isDigitChar = true := by
        simpa using hidx
      have hstrip : pyStrip i = i := pyStrip_of_digits hne.2
      have hdig : pyIsDigit i = true := by
        simp only [pyIsDigit, Bool.and_eq_true]
        exact ⟨by simpa using hne.1, hne.2⟩
      show processLine ⟨segs, [], false⟩ i = ⟨segs, [], false⟩
      refine processLine_digit _ _ ?_ ?_ ?_ ?_ rfl
      · rw [hstrip, beq_eq_false_iff_ne]
        intro he
        rw [he] at hne
        simp at hne
      · rw [hstrip]; exact isHeaderLine_of_digit hdig
      · rw [hstrip]; exact hasArrow_of_digits hne.2
      · rw [hstrip]; exact hdig
  rw [hidxstep]
  have hse : processLine ⟨segs, [], false⟩ c.startEnd = (⟨segs, [], true⟩ : PState) := by
    simpa using processLine_arrow ⟨segs, [], false⟩ c.startEnd hhd' harr rfl
  rw [show List.foldl processLine ⟨segs, [], false⟩ (c.startEnd :: c.textLines) =
      List.foldl processLine (⟨segs, [], true⟩ : PState) c.textLines from by
    rw [List.foldl_cons, hse]]
  rw [foldl_textLines _ _ htxt' rfl]
  show List.foldl processLine ⟨segs, [] ++ cleanedLines c.textLines, true⟩ [""] = _
  rw [List.nil_append, List.foldl_cons, List.foldl_nil,
    processLine_blank_flush _ _ hcl_ne hclean]
  rfl

lemma foldl_renderAllCueLines (cues : List VCue) (segs : List String)
    (h : ∀ c ∈ cues, validCue c = true) :
    (renderAllCueLines cues).foldl processLine ⟨segs, [], false⟩ =
      ⟨segs ++ cues.map cleanCue, [], false⟩ := by
  induction cues generalizing segs with
  | nil => simp [renderAllCueLines]
  | cons c cs ih =>
    show (renderCueLines c ++ renderAllCueLines cs).foldl processLine _ = _
    rw [List.foldl_append, foldl_renderCue c segs (h c (by simp)),
      ih _ (fun x hx => h x (by simp [hx]))]
    simp

end Transcriber

namespace Transcriber

lemma noBreakL_of_digits {l : List Char} (h : l.all isDigitChar = true) :
    noBreakL l = true := by
  unfold noBreakL
  rw [List.all_eq_true]
  intro c hc
  simp [isLineBreak_of_digit (List.all_eq_true.mp h c hc)]

lemma renderCueLines_noBreak {c : VCue} (h : validCue c = true) :
    ∀ l ∈ renderCueLines c, noBreakL l.data = true := by
  simp only [validCue, Bool.and_eq_true] at h
  obtain ⟨⟨⟨⟨⟨hidx, _⟩, _⟩, hnb⟩, htxt⟩, _⟩ := h
  intro l hl
  unfold renderCueLines at hl
  rw [List.mem_append, List.mem_append, List.mem_cons] at hl
  rcases hl with (hl | hl | hl) | hl
  · cases hix : c.index with
    | none => rw [hix] at hl; simp at hl
    | some i =>
      rw [hix] at hl
      simp at hl
      rw [hix] at hidx
      simp only [Bool.and_eq_true] at hidx
      rw [hl]
      exact noBreakL_of_digits hidx.2
  · subst hl; exact hnb
  · have := List.all_eq_true.mp htxt l hl
    simp only [Bool.and_eq_true] at this
    exact this.2
  · simp at hl
    subst hl
    decide

lemma renderAllCueLines_noBreak {cues : List VCue}
    (h : ∀ c ∈ cues, validCue c = true) :
    ∀ l ∈ renderAllCueLines cues, noBreakL l.data = true := by
  induction cues with
  | nil => intro l hl; simp [renderAllCueLines] at hl
  | cons c cs ih =>
    intro l hl
    rw [show renderAllCueLines (c :: cs) = renderCueLines c ++ renderAllCueLines cs
        from rfl, List.mem_append] at hl
    rcases hl with hl | hl
    · exact renderCueLines_noBreak (h c (by simp)) l hl
    · exact ih (fun x hx => h x (by simp [hx])) l hl

lemma renderLines_noBreak {cues : List VCue} (h : ∀ c ∈ cues, validCue c = true) :
    ∀ l ∈ renderLines cues, noBreakL l.data = true := by
  intro l hl
  unfold renderLines at hl
  rw [List.mem_cons, List.mem_cons] at hl
  rcases hl with hl | hl | hl
  · subst hl; decide
  · subst hl; decide
  · exact renderAllCueLines_noBreak h l hl

lemma renderCueLines_getLast (c : VCue) :
    (renderCueLines c).getLast? = some "" := by
  unfold renderCueLines
  exact List.getLast?_concat _

lemma renderAllCueLines_getLast {cues : List VCue} (h : cues ≠ []) :
    (renderAllCueLines cues).getLast? = some "" := by
  induction cues with
  | nil => exact absurd rfl h
  | cons c cs ih =>
    show (renderCueLines c ++ renderAllCueLines cs).getLast? = some ""
    cases cs with
    | nil =>
      rw [show renderAllCueLines [] = [] from rfl, List.append_nil]
      exact renderCueLines_getLast c
    | cons c2 cs2 =>
      rw [List.getLast?_append_of_ne_nil]
      · exact ih (by simp)
      · show renderCueLines c2 ++ renderAllCueLines cs2 ≠ []
        simp [renderCueLines]

lemma renderLines_getLast (cues : List VCue) :
    (renderLines cues).getLast? = some "" := by
  cases cues with
  | nil => rfl
  | cons c cs =>
    show (["WEBVTT", ""] ++ renderAllCueLines (c :: cs)).getLast? = some ""
    rw [List.getLast?_append_of_ne_nil]
    · exact renderAllCueLines_getLast (by simp)
    · show renderCueLines c ++ renderAllCueLines cs ≠ []
      simp [renderCueLines]

end Transcriber

namespace Transcriber

lemma parseSegments_renderVTT {cues : List VCue}
    (h : ∀ c ∈ cues, validCue c = true) :
    parseSegments (renderVTT cues) = cues.map cleanCue := by
  unfold parseSegments renderVTT
  rw [show (String.mk (joinCharsNL (renderLines cues))).data =
      joinCharsNL (renderLines cues) from rfl]
  rw [pySplitLines_joinCharsNL (renderLines_noBreak h)]
  rw [renderLines_getLast, if_pos rfl]
  have hsplit : (renderLines cues).dropLast ++ [""] = renderLines cues :=
    List.dropLast_append_getLast? "" (by rw [renderLines_getLast]; rfl)
  rw [show parseLines (renderLines cues).dropLast = parseLines (renderLines cues) from by
    conv_rhs => rw [← hsplit]
    rw [parseLines_concat_blank]]
  show parseLines ("WEBVTT" :: "" :: renderAllCueLines cues) = _
  unfold parseLines
  rw [List.foldl_cons, List.foldl_cons,
    show processLine (processLine ⟨[], [], false⟩ "WEBVTT") "" =
      (⟨[], [], false⟩ : PState) from by decide,
    foldl_renderAllCueLines cues [] h]
  unfold flushFinal
  simp

lemma processLine_segs (st : PState) (line : String) :
    (processLine st line).segs = st.segs ∨
      ∃ t, t ≠ "" ∧ (processLine st line).segs = st.segs ++ [t] := by
  unfold processLine
  by_cases h1 : (pyStrip line == "") = true
  · simp only [h1, if_true]
    by_cases h2 : (st.inBlock && !st.cur.isEmpty) = true
    · simp only [h2, if_true]
      by_cases h3 : joinSegment st.cur ≠ ""
      · exact Or.inr ⟨joinSegment st.cur, h3, by simp [h3]⟩
      · simp [h3]
    · simp [h2]
  · by_cases h2 : isHeaderLine (pyStrip line) = true
    · simp [h1, h2]
    · by_cases h3 : hasArrow (pyStrip line) = true
      · by_cases h4 : (!st.cur.isEmpty) = true
        · by_cases h5 : joinSegment st.cur ≠ ""
          · refine Or.inr ⟨joinSegment st.cur, h5, ?_⟩
            simp [h1, h2, h3, h4, h5]
          · simp [h1, h2, h3, h4, h5]
        · simp [h1, h2, h3, h4]
      · by_cases h4 : (pyIsDigit (pyStrip line) && !st.inBlock) = true
        · simp [h1, h2, h3, h4]
        · by_cases h5 : st.inBlock = true
          · by_cases h6 : pyStrip (cleanLine (pyStrip line)) ≠ ""
            · simp [h1, h2, h3, h4, h5, h6]
            · simp [h1, h2, h3, h4, h5, h6]
          · simp [h1, h2, h3, h4, h5]

lemma foldl_no_empty (ls : List String) (st : PState)
    (h : "" ∉ st.segs) : "" ∉ (ls.foldl processLine st).segs := by
  induction ls generalizing st with
  | nil => exact h
  | cons line rest ih =>
    rw [List.foldl_cons]
    refine ih _ ?_
    rcases processLine_segs st line with hseg | ⟨t, ht, hseg⟩
    · rw [hseg]; exact h
    · rw [hseg]
      intro hmem
      rcases List.mem_append.mp hmem with hm | hm
      · exact h hm
      · have hm' : "" = t := by simpa using hm
        exact ht hm'.symm

lemma parseLines_no_empty (ls : List String) : "" ∉ parseLines ls := by
  unfold parseLines flushFinal
  intro hmem
  rcases List.mem_append.mp hmem with hm | hm
  · exact foldl_no_empty ls _ (by simp) hm
  · by_cases hc : (!(ls.foldl processLine ⟨[], [], false⟩).cur.isEmpty &&
        joinSegment (ls.foldl processLine ⟨[], [], false⟩).cur ≠ "") = true
    · rw [if_pos hc] at hm
      rw [Bool.and_eq_true] at hc
      have hne : joinSegment (ls.foldl processLine ⟨[], [], false⟩).cur ≠ "" := by
        simpa using hc.2
      have hm' : "" = joinSegment (ls.foldl processLine ⟨[], [], false⟩).cur := by
        simpa using hm
      exact hne hm'.symm
    · rw [if_neg hc] at hm
      simp at hm

lemma parseSegments_no_empty (s : String) : "" ∉ parseSegments s :=
  parseLines_no_empty _

end Transcriber

namespace Transcriber

lemma audioStep_video_title (env : Env) (req : Request) (r : PVDResult) :
    (audioStep env req r).video_title = r.video_title := by
  unfold audioStep recordError
  repeat' split
  all_goals rfl

lemma audioStep_transcript_text (env : Env) (req : Request) (r : PVDResult) :
    (audioStep env req r).transcript_text = r.transcript_text := by
  unfold audioStep recordError
  repeat' split
  all_goals rfl

lemma audioStep_transcript_language (env : Env) (req : Request) (r : PVDResult) :
    (audioStep env req r).transcript_language_detected =
      r.transcript_language_detected := by
  unfold audioStep recordError
  repeat' split
  all_goals rfl

lemma audioStep_ignores_transcript_flag (env : Env) (req : Request)
    (b : Bool) (r : PVDResult) :
    audioStep env { req with perform_transcript_extraction := b } r =
      audioStep env req r := by
  unfold audioStep
  rfl

lemma transStep_ignores_audio_flag (env : Env) (req : Request)
    (b : Bool) (r : PVDResult) :
    transStep env { req with perform_audio_extraction := b } r =
      transStep env req r := by
  unfold transStep
  rfl

end Transcriber

namespace Transcriber

lemma transStep_error (env : Env) (req : Request) (r : PVDResult) :
    (transStep env req r).1.error =
      firstSome r.error (transcript_step_error env req) := by
  by_cases h1 : (req.perform_transcript_extraction && is_youtube_url req.video_url) = true
  · cases houtcome : env.trans.outcome with
    | ok rs =>
      cases hres : resolveDownloaded rs env.trans.written
          (env.baseDir ++ "/api_transcripts_temp")
          ("transcript_" ++ env.trans.uuidHex) with
      | some hit =>
        simp [transStep, transcript_step_error, initResult, recordError,
          firstSome, h1, houtcome, hres]
        cases r.error <;> simp
      | none =>
        simp [transStep, transcript_step_error, initResult, recordError,
          firstSome, h1, houtcome, hres]
        cases r.error <;> simp
    | error te =>
      simp [transStep, transcript_step_error, initResult, recordError,
        firstSome, h1, houtcome]
      cases r.error <;> simp
  · by_cases h2 : (req.perform_transcript_extraction &&
        !is_youtube_url req.video_url) = true
    · simp [transStep, transcript_step_error, initResult, recordError,
        firstSome, h1, h2]
      cases r.error <;> simp
    · simp [transStep, transcript_step_error, initResult, recordError,
        firstSome, h1, h2]
      cases r.error <;> simp

lemma transStep_text_congr (env : Env) (req : Request) (r r' : PVDResult)
    (h : r.transcript_text = r'.transcript_text) :
    (transStep env req r).1.transcript_text =
      (transStep env req r').1.transcript_text := by
  by_cases h1 : (req.perform_transcript_extraction && is_youtube_url req.video_url) = true
  · cases houtcome : env.trans.outcome with
    | ok rs =>
      cases hres : resolveDownloaded rs env.trans.written
          (env.baseDir ++ "/api_transcripts_temp")
          ("transcript_" ++ env.trans.uuidHex) with
      | some hit => simp [transStep, recordError, h1, houtcome, hres]
      | none => simp [transStep, recordError, h1, houtcome, hres, h]
    | error te => simp [transStep, recordError, h1, houtcome, h]
  · by_cases h2 : (req.perform_transcript_extraction &&
        !is_youtube_url req.video_url) = true
    · simp [transStep, recordError, h1, h2]
    · simp [transStep, recordError, h1, h2, h]

lemma transStep_language_congr (env : Env) (req : Request) (r r' : PVDResult)
    (h : r.transcript_language_detected = r'.transcript_language_detected) :
    (transStep env req r).1.transcript_language_detected =
      (transStep env req r').1.transcript_language_detected := by
  by_cases h1 : (req.perform_transcript_extraction && is_youtube_url req.video_url) = true
  · cases houtcome : env.trans.outcome with
    | ok rs =>
      cases hres : resolveDownloaded rs env.trans.written
          (env.baseDir ++ "/api_transcripts_temp")
          ("transcript_" ++ env.trans.uuidHex) with
      | some hit => simp [transStep, recordError, h1, houtcome, hres]
      | none => simp [transStep, recordError, h1, houtcome, hres, h]
    | error te => simp [transStep, recordError, h1, houtcome, h]
  · by_cases h2 : (req.perform_transcript_extraction &&
        !is_youtube_url req.video_url) = true
    · simp [transStep, recordError, h1, h2, h]
    · simp [transStep, recordError, h1, h2, h]

end Transcriber

namespace Transcriber

lemma process_eq_steps (env : Env) (req : Request) (info : MetaInfo)
    (h : env.meta.outcome = Except.ok info) :
    process_video_details env req =
      transStep env req (audioStep env req (metaResult env req info)) := by
  simp [process_video_details, h, metaResult, initResult]

lemma metaResult_error (env : Env) (req : Request) (info : MetaInfo) :
    (metaResult env req info).error = none := rfl

lemma metaResult_transcript_text (env : Env) (req : Request) (info : MetaInfo) :
    (metaResult env req info).transcript_text = none := rfl

/-- C2: when metadata lookup succeeds, the result's error is the first
error chronologically: the audio step's error if it produced one,
otherwise the transcript step's; and the transcript step's fields are
exactly what a run without the audio step would produce, so an audio
failure never blocks transcript extraction. -/
theorem first_error_wins (env : Env) (req : Request) (info : MetaInfo)
    (h : env.meta.outcome = Except.ok info) :
    (process_video_details env req).1.error =
      firstSome
        (process_video_details env
          { req with perform_transcript_extraction := false }).1.error
        (process_video_details env
          { req with perform_audio_extraction := false }).1.error ∧
    (process_video_details env req).1.transcript_text =
      (process_video_details env
        { req with perform_audio_extraction := false }).1.transcript_text ∧
    (process_video_details env req).1.transcript_language_detected =
      (process_video_details env
        { req with perform_audio_extraction := false }).1.transcript_language_detected := by
  rw [process_eq_steps env req info h,
    process_eq_steps env { req with perform_transcript_extraction := false } info h,
    process_eq_steps env { req with perform_audio_extraction := false } info h]
  have hmr1 : metaResult env { req with perform_transcript_extraction := false } info =
      metaResult env req info := rfl
  have hmr2 : metaResult env { req with perform_audio_extraction := false } info =
      metaResult env req info := rfl
  have hts : ∀ r : PVDResult,
      transStep env { req with perform_transcript_extraction := false } r = (r, []) := by
    intro r
    simp [transStep]
  have hai : ∀ r : PVDResult,
      audioStep env { req with perform_audio_extraction := false } r = r := by
    intro r
    simp [audioStep]
  rw [hmr1, hmr2, hts, hai,
    audioStep_ignores_transcript_flag env req false,
    transStep_ignores_audio_flag env req false]
  refine ⟨?_, ?_, ?_⟩
  · rw [transStep_error, transStep_error, metaResult_error]
    rfl
  · exact transStep_text_congr env req _ _
      (audioStep_transcript_text env req (metaResult env req info))
  · exact transStep_language_congr env req _ _
      (audioStep_transcript_language env req (metaResult env req info))

end Transcriber

namespace Transcriber

lemma pickSub_cons (rs : List (String × SubInfo)) (written : List String)
    (lang : String) (restLangs : List String) :
    pickSub rs written (lang :: restLangs) =
      match subCandidate rs written lang with
      | some p => some (p, lang)
      | none => pickSub rs written restLangs := by
  unfold subCandidate
  show (match rs.lookup lang with
    | some si =>
      match si.filepath with
      | some p =>
        if !(p == "") && written.contains p then some (p, lang)
        else pickSub rs written restLangs
      | none => pickSub rs written restLangs
    | none => pickSub rs written restLangs) = _
  cases rs.lookup lang with
  | none => rfl
  | some si =>
    dsimp only
    cases si.filepath with
    | none => rfl
    | some p =>
      dsimp only
      by_cases hc : (!(p == "") && written.contains p) = true
      · simp only [if_pos hc]
      · simp only [if_neg hc]

lemma pickSub_characterization (rs : List (String × SubInfo))
    (written : List String) :
    pickSub rs written subtitle_language_preference =
      match subCandidate rs written "en" with
      | some p => some (p, "en")
      | none =>
        match subCandidate rs written "ro" with
        | some p => some (p, "ro")
        | none => none := by
  rw [show subtitle_language_preference = ["en", "ro"] from rfl,
    pickSub_cons, pickSub_cons]
  cases subCandidate rs written "en" with
  | some p => rfl
  | none =>
    cases subCandidate rs written "ro" with
    | some p => rfl
    | none => rfl

lemma pickSub_sound {rs : List (String × SubInfo)} {written : List String}
    {langs : List String} {p lang : String}
    (h : pickSub rs written langs = some (p, lang)) :
    lang ∈ langs ∧ written.contains p = true := by
  induction langs with
  | nil => simp [pickSub] at h
  | cons l ls ih =>
    unfold pickSub at h
    cases hlook : rs.lookup l with
    | none =>
      rw [hlook] at h
      obtain ⟨h1, h2⟩ := ih h
      exact ⟨by simp [h1], h2⟩
    | some si =>
      rw [hlook] at h
      dsimp only at h
      cases hfp : si.filepath with
      | none =>
        rw [hfp] at h
        obtain ⟨h1, h2⟩ := ih h
        exact ⟨by simp [h1], h2⟩
      | some q =>
        rw [hfp] at h
        dsimp only at h
        by_cases hc : (!(q == "") && written.contains q) = true
        · rw [if_pos hc] at h
          obtain ⟨hp, hl⟩ : q = p ∧ l = lang := by
            have := h
            simp at this
            exact ⟨this.1, this.2⟩
          subst hp; subst hl
          rw [Bool.and_eq_true] at hc
          exact ⟨by simp, hc.2⟩
        · rw [if_neg hc] at h
          obtain ⟨h1, h2⟩ := ih h
          exact ⟨by simp [h1], h2⟩

lemma scanSub_sound {tempDir base : String} {written : List String}
    {langs : List String} {p lang : String}
    (h : scanSub tempDir base written langs = some (p, lang)) :
    lang ∈ langs ∧ written.contains p = true := by
  induction langs with
  | nil => simp [scanSub] at h
  | cons l ls ih =>
    unfold scanSub at h
    by_cases hc : written.contains (expectedSubPath tempDir base l) = true
    · rw [if_pos hc] at h
      obtain ⟨hp, hl⟩ : expectedSubPath tempDir base l = p ∧ l = lang := by
        have := h
        simp at this
        exact ⟨this.1, this.2⟩
      subst hp; subst hl
      exact ⟨by simp, hc⟩
    · rw [if_neg hc] at h
      obtain ⟨h1, h2⟩ := ih h
      exact ⟨by simp [h1], h2⟩

lemma resolveDownloaded_sound {rs : Option (List (String × SubInfo))}
    {written : List String} {tempDir base : String} {p lang : String}
    (h : resolveDownloaded rs written tempDir base = some (p, lang)) :
    lang ∈ subtitle_language_preference ∧ written.contains p = true := by
  unfold resolveDownloaded at h
  cases hrs : rs with
  | none =>
    rw [hrs] at h
    dsimp only at h
    exact scanSub_sound h
  | some l =>
    rw [hrs] at h
    dsimp only at h
    by_cases hl : (!l.isEmpty) = true
    · rw [if_pos hl] at h
      cases hpick : pickSub l written subtitle_language_preference with
      | none => rw [hpick] at h; exact scanSub_sound h
      | some hit =>
        rw [hpick] at h
        have hh : hit = (p, lang) := by simpa using h
        subst hh
        exact pickSub_sound hpick
    · rw [if_neg hl] at h
      exact scanSub_sound h

end Transcriber

namespace Transcriber

lemma transStep_language_cases (env : Env) (req : Request) (r : PVDResult) :
    (transStep env req r).1.transcript_language_detected =
      r.transcript_language_detected ∨
    ∃ lang, lang ∈ subtitle_language_preference ∧
      (transStep env req r).1.transcript_language_detected = some lang := by
  by_cases h1 : (req.perform_transcript_extraction && is_youtube_url req.video_url) = true
  · cases houtcome : env.trans.outcome with
    | ok rs =>
      cases hres : resolveDownloaded rs env.trans.written
          (env.baseDir ++ "/api_transcripts_temp")
          ("transcript_" ++ env.trans.uuidHex) with
      | some hit =>
        right
        obtain ⟨p, lang⟩ := hit
        refine ⟨lang, (resolveDownloaded_sound hres).1, ?_⟩
        simp [transStep, h1, houtcome, hres]
      | none =>
        left
        simp [transStep, recordError, h1, houtcome, hres]
    | error te =>
      left
      simp [transStep, recordError, h1, houtcome]
  · by_cases h2 : (req.perform_transcript_extraction &&
        !is_youtube_url req.video_url) = true
    · left; simp [transStep, h1, h2]
    · left; simp [transStep, h1, h2]

lemma process_language_cases (env : Env) (req : Request) :
    (process_video_details env req).1.transcript_language_detected ∈
      ([none, some "en", some "ro"] : List (Option String)) := by
  cases hm : env.meta.outcome with
  | error e => simp [process_video_details, hm, initResult]
  | ok info =>
    rw [process_eq_steps env req info hm]
    rcases transStep_language_cases env req
        (audioStep env req (metaResult env req info)) with hsame | ⟨lang, hmem, hlang⟩
    · rw [hsame, audioStep_transcript_language]
      simp [metaResult, initResult]
    · rw [hlang]
      have hor : lang = "en" ∨ lang = "ro" := by
        simpa [subtitle_language_preference] using hmem
      rcases hor with rfl | rfl <;> simp

/-- C1 (amended): the transcript cleanup removes exactly the one resolved
subtitle file: when resolution picked path `p` and the deletion does not
fail, `p` is gone from the temporary area at return; and a deletion
failure never changes the returned response (it is swallowed), though
other files carrying the per-request basename may remain. -/
theorem resolved_subtitle_file_removed (env : Env) (req : Request) (p lang : String)
    (hres : transResolved env req = some (p, lang))
    (hrf : env.trans.removeFails = false) :
    p ∉ (process_video_details env req).2 ∧
    ∀ rf : Bool,
      (process_video_details
        { env with trans := { env.trans with removeFails := rf } } req).1 =
      (process_video_details env req).1 := by
  unfold transResolved at hres
  by_cases h1 : (req.perform_transcript_extraction && is_youtube_url req.video_url) = true
  swap
  · rw [if_neg h1] at hres
    exact absurd hres (by simp)
  rw [if_pos h1] at hres
  constructor
  · cases hm : env.meta.outcome with
    | error e => simp [process_video_details, hm]
    | ok info =>
      rw [process_eq_steps env req info hm]
      cases houtcome : env.trans.outcome with
      | error te => rw [houtcome] at hres; simp at hres
      | ok rs =>
        rw [houtcome] at hres
        dsimp only at hres
        have hcontains := (resolveDownloaded_sound hres).2
        have hmem : p ∈ env.trans.written := by simpa using hcontains
        simp [transStep, h1, houtcome, hres, hcontains, hrf, hmem, List.mem_filter]
  · intro rf
    cases hm : env.meta.outcome with
    | error e => simp [process_video_details, hm]
    | ok info =>
      rw [process_eq_steps env req info hm,
        process_eq_steps { env with trans := { env.trans with removeFails := rf } }
          req info (by simpa using hm)]
      have ha : audioStep { env with trans := { env.trans with removeFails := rf } } req =
          audioStep env req := rfl
      have hmr : metaResult { env with trans := { env.trans with removeFails := rf } }
          req info = metaResult env req info := rfl
      rw [ha, hmr]
      cases houtcome : env.trans.outcome with
      | ok rs =>
        cases hres2 : resolveDownloaded rs env.trans.written
            (env.baseDir ++ "/api_transcripts_temp")
            ("transcript_" ++ env.trans.uuidHex) with
        | some hit => simp [transStep, h1, houtcome, hres2]
        | none => simp [transStep, recordError, h1, houtcome, hres2]
      | error te => simp [transStep, recordError, h1, houtcome]

end Transcriber

namespace Transcriber

lemma dedupGo_destutter' (l : List String) (a : String) :
    List.destutter' (· ≠ ·) a l = a :: dedupGo a l := by
  induction l generalizing a with
  | nil => rfl
  | cons b bs ih =>
    by_cases hab : a ≠ b
    · rw [List.destutter'_cons_pos _ hab, ih]
      unfold dedupGo
      rw [if_pos (Ne.symm hab)]
      cases bs <;> rfl
    · rw [List.destutter'_cons_neg _ hab]
      push_neg at hab
      subst hab
      rw [ih]
      unfold dedupGo
      rw [if_neg (by simp)]
      cases bs <;> rfl

lemma vtt_dedup_destutter (l : List String) :
    vtt_dedup l = l.destutter (· ≠ ·) := by
  cases l with
  | nil => rfl
  | cons x xs =>
    show x :: dedupGo x xs = List.destutter' (· ≠ ·) x xs
    rw [dedupGo_destutter']

lemma isPrefixL_iff (pat l : List Char) :
    isPrefixL pat l = true ↔ ∃ suf, l = pat ++ suf := by
  induction pat generalizing l with
  | nil => simp [isPrefixL]
  | cons p ps ih =>
    cases l with
    | nil =>
      simp [isPrefixL]
    | cons q qs =>
      rw [show isPrefixL (p :: ps) (q :: qs) = (p == q && isPrefixL ps qs) from rfl,
        Bool.and_eq_true, beq_iff_eq, ih]
      constructor
      · rintro ⟨rfl, suf, rfl⟩
        exact ⟨suf, rfl⟩
      · rintro ⟨suf, hsuf⟩
        rw [List.cons_append] at hsuf
        obtain ⟨h1, h2⟩ := List.cons.injEq _ _ _ _ ▸ hsuf
        exact ⟨h1.symm, suf, h2⟩

lemma containsSub_iff (pat l : List Char) :
    containsSub pat l = true ↔ ∃ pre suf, l = pre ++ pat ++ suf := by
  induction l with
  | nil =>
    rw [show containsSub pat [] = isPrefixL pat [] from rfl, isPrefixL_iff]
    constructor
    · rintro ⟨suf, hsuf⟩
      exact ⟨[], suf, by simpa using hsuf⟩
    · rintro ⟨pre, suf, hsuf⟩
      refine ⟨suf, ?_⟩
      have hpre : pre = [] := by
        cases pre with
        | nil => rfl
        | cons a as => simp at hsuf
      subst hpre
      simpa using hsuf
  | cons c rest ih =>
    rw [show containsSub pat (c :: rest) =
        (isPrefixL pat (c :: rest) || containsSub pat rest) from rfl,
      Bool.or_eq_true, isPrefixL_iff, ih]
    constructor
    · rintro (⟨suf, hsuf⟩ | ⟨pre, suf, hsuf⟩)
      · exact ⟨[], suf, by simpa using hsuf⟩
      · exact ⟨c :: pre, suf, by simp [hsuf]⟩
    · rintro ⟨pre, suf, hsuf⟩
      cases pre with
      | nil =>
        left
        exact ⟨suf, by simpa using hsuf⟩
      | cons a as =>
        right
        rw [List.cons_append, List.cons_append] at hsuf
        obtain ⟨h1, h2⟩ := List.cons.injEq _ _ _ _ ▸ hsuf
        exact ⟨as, suf, h2⟩

end Transcriber

namespace Transcriber

/-- C1 counterexample: in the sample run both preference languages were
written under the per-request basename, the English file is resolved and
deleted, and the Romanian file, which carries the basename, remains at
return — so the claimed full cleanup fails on the code. -/
theorem cleanup_leftover_counterexample :
    (process_video_details c1Env c1Req).2 = [c1RoPath] ∧
    containsSub ("transcript_" ++ c1Env.trans.uuidHex).data c1RoPath.data = true := by
  decide

/-- C1 witness: the amended cleanup statement at the sample run. -/
theorem resolved_subtitle_file_removed_witness :
    c1EnPath ∉ (process_video_details c1Env c1Req).2 ∧
    ∀ rf : Bool,
      (process_video_details
        { c1Env with trans := { c1Env.trans with removeFails := rf } } c1Req).1 =
      (process_video_details c1Env c1Req).1 :=
  resolved_subtitle_file_removed c1Env c1Req c1EnPath "en" (by decide) (by decide)

/-- C2 witness: the first-error policy at the sample environment. -/
theorem first_error_wins_witness :
    (process_video_details c1Env c1Req).1.error =
      firstSome
        (process_video_details c1Env
          { c1Req with perform_transcript_extraction := false }).1.error
        (process_video_details c1Env
          { c1Req with perform_audio_extraction := false }).1.error ∧
    (process_video_details c1Env c1Req).1.transcript_text =
      (process_video_details c1Env
        { c1Req with perform_audio_extraction := false }).1.transcript_text ∧
    (process_video_details c1Env c1Req).1.transcript_language_detected =
      (process_video_details c1Env
        { c1Req with perform_audio_extraction := false }).1.transcript_language_detected :=
  first_error_wins c1Env c1Req sampleMeta rfl

/-- C3: when metadata lookup fails, the orchestrator aborts at once: the
returned response carries only the echoed URL and the formatted error,
every other field is unset, no temporary file exists, and the result does
not depend on the audio or transcript environments (neither step runs). -/
theorem metadata_failure_aborts (env : Env) (req : Request) (e : MetaErr)
    (h : env.meta.outcome = Except.error e) :
    process_video_details env req =
      ({ initResult req.video_url with error := some (metaErrorMessage e) }, []) ∧
    ∀ (a : AudioEnv) (t : TransEnv),
      process_video_details { env with audio := a, trans := t } req =
        process_video_details env req := by
  constructor
  · simp [process_video_details, h]
  · intro a t
    simp [process_video_details, h]

/-- C3 witness: the abort behaviour at a concrete failing lookup. -/
theorem metadata_failure_aborts_witness :
    process_video_details c3Env c1Req =
      ({ initResult c1Req.video_url with
          error := some (metaErrorMessage { isDownloadError := true, msg := "HTTP Error 404" }) }, []) ∧
    ∀ (a : AudioEnv) (t : TransEnv),
      process_video_details { c3Env with audio := a, trans := t } c1Req =
        process_video_details c3Env c1Req :=
  metadata_failure_aborts c3Env c1Req
    { isDownloadError := true, msg := "HTTP Error 404" } rfl

/-- C4: on every well-formed rendered cue document whose cues have
non-empty cleaned text, the cue parser emits exactly one segment per cue,
in source order, each equal to that cue's cleaned text; and on any input
whatsoever it never emits an empty segment. -/
theorem cue_parser_exact_segments (cues : List VCue)
    (h : ∀ c ∈ cues, validCue c = true) :
    parseSegments (renderVTT cues) = cues.map cleanCue ∧
    ∀ input : String, "" ∉ parseSegments input :=
  ⟨parseSegments_renderVTT h, fun input => parseSegments_no_empty input⟩

/-- C4 witness: the parser on the two-cue sample document. -/
theorem cue_parser_exact_segments_witness :
    (∀ c ∈ c4Cues, validCue c = true) ∧
    c4Cues.map cleanCue = ["Hello world", "Bye & see you soon"] ∧
    (parseSegments (renderVTT c4Cues) = c4Cues.map cleanCue ∧
     ∀ input : String, "" ∉ parseSegments input) :=
  ⟨by decide, by decide, cue_parser_exact_segments c4Cues (by decide)⟩

/-- C5 counterexample: a digit-only line inside a cue's text region is
kept as cue text, so a digit-only line does appear in the parser's output
segments, refuting the claim as stated. -/
theorem digit_segment_in_output_counterexample :
    parseSegments "0 --> 1\n42" = ["42"] ∧ pyIsDigit "42" = true := by
  decide

/-- C5 (amended): a header/metadata line, and a digit-only line seen while
not inside a cue-text region, are discarded at classification: processing
such a line never extends the collected segments or the pending cue
buffer.  A digit-only line inside a cue-text region is cue text and may
appear in the output. -/
theorem header_index_lines_never_contribute (st : PState) (line : String)
    (h : isHeaderLine (pyStrip line) = true ∨
      (pyIsDigit (pyStrip line) = true ∧ st.inBlock = false)) :
    (processLine st line).segs = st.segs ∧ (processLine st line).cur = st.cur := by
  rcases h with hh | ⟨hd, hb⟩
  · have h1 : (pyStrip line == "") = false := by
      rw [beq_eq_false_iff_ne]
      intro he
      rw [he] at hh
      exact absurd hh (by decide)
    rw [processLine_header st line h1 hh]
    exact ⟨rfl, rfl⟩
  · have h1 : (pyStrip line == "") = false := by
      rw [beq_eq_false_iff_ne]
      intro he
      rw [he] at hd
      exact absurd hd (by decide)
    have hall : (pyStrip line).data.all isDigitChar = true := by
      have := hd
      rw [pyIsDigit, Bool.and_eq_true] at this
      exact this.2
    rw [processLine_digit st line h1 (isHeaderLine_of_digit hd)
      (hasArrow_of_digits hall) hd hb]
    exact ⟨rfl, rfl⟩

/-- C5 witness: a header line processed mid-cue leaves segments and
buffer untouched. -/
theorem header_index_lines_never_contribute_witness :
    (processLine ⟨["kept"], ["buf"], true⟩ "NOTE styling hint").segs = ["kept"] ∧
    (processLine ⟨["kept"], ["buf"], true⟩ "NOTE styling hint").cur = ["buf"] :=
  header_index_lines_never_contribute ⟨["kept"], ["buf"], true⟩
    "NOTE styling hint" (Or.inl (by decide))

/-- C6: the normalizer collapses exactly the consecutive duplicate
segments (it computes the destutter of the segment list), joins with
line feeds, maps the empty list to empty text, and in particular sends
the list a, a, b, a to the three-line text a, b, a. -/
theorem normalizer_dedup_join :
    (∀ segs : List String, vtt_dedup segs = segs.destutter (· ≠ ·)) ∧
    (∀ segs : List String,
      normalizeSegments segs = String.intercalate "\n" (vtt_dedup segs)) ∧
    normalizeSegments [] = "" ∧
    normalizeSegments ["a", "a", "b", "a"] = "a\nb\na" := by
  refine ⟨vtt_dedup_destutter, ?_, rfl, by decide⟩
  intro segs
  cases segs with
  | nil => rfl
  | cons x xs => simp [normalizeSegments]

/-- C7: language resolution follows the fixed two-entry preference list
en-then-ro in both loops: the structured-response loop takes the English
entry's usable file path when there is one and only otherwise the
Romanian one, the filesystem scan resolves to the first language whose
expected file exists and to nothing otherwise, resolution never yields a
language outside the list, the recorded language of any orchestrated run
is en, ro or absent, and the candidate-set examples of the spec hold
through both candidate sources, with the primary winning when both
languages are available. -/
theorem language_preference_resolution :
    (∀ (rs : List (String × SubInfo)) (written : List String),
      pickSub rs written subtitle_language_preference =
        match subCandidate rs written "en" with
        | some p => some (p, "en")
        | none =>
          match subCandidate rs written "ro" with
          | some p => some (p, "ro")
          | none => none) ∧
    (∀ (tempDir base : String) (written : List String),
      scanSub tempDir base written subtitle_language_preference =
        if written.contains (expectedSubPath tempDir base "en") then
          some (expectedSubPath tempDir base "en", "en")
        else if written.contains (expectedSubPath tempDir base "ro") then
          some (expectedSubPath tempDir base "ro", "ro")
        else none) ∧
    (∀ (rs : Option (List (String × SubInfo))) (written : List String)
        (tempDir base p lang : String),
      resolveDownloaded rs written tempDir base = some (p, lang) →
        lang ∈ subtitle_language_preference) ∧
    (∀ (env : Env) (req : Request),
      (process_video_details env req).1.transcript_language_detected ∈
        ([none, some "en", some "ro"] : List (Option String))) ∧
    pickSub [("en", { filepath := some "/t/b.en.vtt" }),
             ("ro", { filepath := some "/t/b.ro.vtt" })]
        ["/t/b.en.vtt", "/t/b.ro.vtt"] subtitle_language_preference =
      some ("/t/b.en.vtt", "en") ∧
    pickSub [("ro", { filepath := some "/t/b.ro.vtt" })] ["/t/b.ro.vtt"]
        subtitle_language_preference = some ("/t/b.ro.vtt", "ro") ∧
    pickSub [] [] subtitle_language_preference = none ∧
    resolveDownloaded
        (some [("en", { filepath := some "/t/b.en.vtt" }),
               ("ro", { filepath := some "/t/b.ro.vtt" })])
        ["/t/b.en.vtt", "/t/b.ro.vtt"] "/t" "b" =
      some ("/t/b.en.vtt", "en") ∧
    scanSub "/t" "b" [expectedSubPath "/t" "b" "ro"] subtitle_language_preference =
      some (expectedSubPath "/t" "b" "ro", "ro") ∧
    scanSub "/t" "b" [] subtitle_language_preference = none ∧
    scanSub "/t" "b" [expectedSubPath "/t" "b" "en", expectedSubPath "/t" "b" "ro"]
        subtitle_language_preference =
      some (expectedSubPath "/t" "b" "en", "en") := by
  refine ⟨pickSub_characterization, ?_, ?_, process_language_cases,
    by decide, by decide, by decide, by decide, by decide, by decide, by decide⟩
  · intro tempDir base written
    rfl
  · intro rs written tempDir base p lang h
    exact (resolveDownloaded_sound h).1

/-- C8: a transcript request for a URL outside the supported platform
attempts no extraction: the response carries the informational
unsupported-source text, no language, the error of the run without the
transcript step (the branch records no error), no temporary file, and
the whole result is independent of the transcript environment. -/
theorem unsupported_source_informational (env : Env) (req : Request)
    (info : MetaInfo)
    (hm : env.meta.outcome = Except.ok info)
    (ht : req.perform_transcript_extraction = true)
    (hy : is_youtube_url req.video_url = false) :
    (process_video_details env req).1.transcript_text =
      some transcriptMsgUnsupported ∧
    (process_video_details env req).1.transcript_language_detected = none ∧
    (process_video_details env req).1.error =
      (process_video_details env
        { req with perform_transcript_extraction := false }).1.error ∧
    (process_video_details env req).2 = [] ∧
    ∀ t : TransEnv,
      process_video_details { env with trans := t } req =
        process_video_details env req := by
  have hstep := process_eq_steps env req info hm
  have hstep2 := process_eq_steps env
    { req with perform_transcript_extraction := false } info hm
  have hunsup : ∀ r : PVDResult, transStep env req r =
      ({ r with transcript_text := some transcriptMsgUnsupported }, []) := by
    intro r
    simp [transStep, ht, hy]
  have hts : ∀ r : PVDResult,
      transStep env { req with perform_transcript_extraction := false } r = (r, []) := by
    intro r
    simp [transStep]
  refine ⟨?_, ?_, ?_, ?_, ?_⟩
  · rw [hstep, hunsup]
  · rw [hstep, hunsup]
    show (audioStep env req (metaResult env req info)).transcript_language_detected = none
    rw [audioStep_transcript_language]
    rfl
  · rw [hstep, hstep2, hunsup, hts]
    rfl
  · rw [hstep, hunsup]
  · intro t
    rw [process_eq_steps { env with trans := t } req info (by simpa using hm), hstep]
    have hunsup2 : ∀ r : PVDResult, transStep { env with trans := t } req r =
        ({ r with transcript_text := some transcriptMsgUnsupported }, []) := by
      intro r
      simp [transStep, ht, hy]
    rw [hunsup, hunsup2]
    rw [show audioStep { env with trans := t } req = audioStep env req from rfl,
      show metaResult { env with trans := t } req info = metaResult env req info from rfl]

/-- C8 witness: the unsupported-source behaviour at a concrete request. -/
theorem unsupported_source_informational_witness :
    (process_video_details c1Env c8Req).1.transcript_text =
      some transcriptMsgUnsupported ∧
    (process_video_details c1Env c8Req).1.transcript_language_detected = none ∧
    (process_video_details c1Env c8Req).1.error =
      (process_video_details c1Env
        { c8Req with perform_transcript_extraction := false }).1.error ∧
    (process_video_details c1Env c8Req).2 = [] ∧
    ∀ t : TransEnv,
      process_video_details { c1Env with trans := t } c8Req =
        process_video_details c1Env c8Req :=
  unsupported_source_informational c1Env c8Req sampleMeta rfl rfl (by decide)

/-- C9: the cue parser plus normalizer is a pure function of its input:
two invocations on equal inputs give byte-identical outputs. -/
theorem vtt_to_plaintext_deterministic (s t : String) (h : s = t) :
    vtt_to_plaintext s = vtt_to_plaintext t :=
  congrArg vtt_to_plaintext h

/-- C9 witness: determinism at a concrete document. -/
theorem vtt_to_plaintext_deterministic_witness :
    vtt_to_plaintext "WEBVTT\n\n0 --> 1\nhi\n" =
      vtt_to_plaintext "WEBVTT\n\n0 --> 1\nhi\n" :=
  vtt_to_plaintext_deterministic _ _ rfl

/-- C10: a URL is classified as belonging to the supported platform
exactly when the string youtube.com-slash occurs as a substring anywhere
in it; the short-link host is not recognised, while an embedding of the
substring under another host is. -/
theorem is_youtube_url_iff_substring :
    (∀ url : String, is_youtube_url url = true ↔
      ∃ pre suf, url.data = pre ++ "youtube.com/".data ++ suf) ∧
    is_youtube_url "https://youtu.be/dQw4w9WgXcQ" = false ∧
    is_youtube_url "https://evil.example/path?next=youtube.com/watch" = true ∧
    is_youtube_url "" = false := by
  refine ⟨?_, by decide, by decide, by decide⟩
  intro url
  by_cases hu : url = ""
  · subst hu
    simp only [is_youtube_url]
    constructor
    · intro h
      simp at h
    · rintro ⟨pre, suf, h⟩
      have := congrArg List.length h
      simp at this
      omega
  · rw [show is_youtube_url url =
        containsSub "youtube.com/".data url.data from by
      simp [is_youtube_url, hu]]
    exact containsSub_iff _ _

end Transcriber
